/-
Verification of the elastix plugin components (julietam/elastix).

This file gives a shallow embedding of:
  * `itk::ImageFullSampler` (src/Common/ImageSamplers/itkImageFullSampler.hxx):
    `GenerateWorkUnits`, `SingleThreadedGenerateData`, `MultiThreadedGenerateData`,
    `GenerateData`, `ThreaderCallback`, `GenerateDataForWorkUnit`;
  * `CustomImageMetric::GetValueAndDerivative`
    (src/Common/CostFunctions/CustomImageMetric.hxx);
  * `AdvancedMattesMutualInformationMetric::Compute_c` / `AfterEachIteration`
    (src/Components/Metrics/AdvancedMattesMutualInformation/
     elxAdvancedMattesMutualInformationMetric.hxx),
and proves the behavioural properties stated about them.

Modelling conventions:
  * An image region is embedded as the list of its indices in the region's
    iteration order (`ImageRegionConstIteratorWithIndex` order).  The ITK
    image is a pair of functions: index to physical point
    (`TransformIndexToPhysicalPoint`) and index to pixel value (`GetPixel`).
  * The shared sample buffer (`std::vector<ImageSampleType>`) is a Lean list;
    raw sample pointers into the buffer become natural-number offsets.
    `std::vector::resize` value-initialises new elements, hence the
    `Inhabited` default.
  * Concurrency: the ITK multi-threader invokes the registered callback once
    per work-unit ID; the work units write to pairwise disjoint buffer ranges,
    so thread interleaving is immaterial and the execution is embedded as the
    sequential fold of the callback over the work-unit IDs.
  * `double` arithmetic is embedded as exact arithmetic (`ℚ` for the metric
    accumulations, `ℝ` for `std::pow`).
-/
import Mathlib

namespace ElastixModel

/-! ### Generic buffer primitives (std::vector / raw-pointer operations) -/

/-- `std::vector::resize (n)`: keep the first `min n l.length` elements and
value-initialise the rest. -/
def listResize {α : Type _} [Inhabited α] (l : List α) (n : Nat) : List α :=
  l.take n ++ List.replicate (n - l.length) default

/-- Write the block `xs` into `buf` starting at offset `s`, in place
(the buffer keeps its length when `s + xs.length ≤ buf.length`). -/
def writeAt {α : Type _} (buf : List α) (s : Nat) (xs : List α) : List α :=
  buf.take s ++ xs ++ buf.drop (s + xs.length)

/-- `std::copy_n(buf + src, n, buf + dest)`: element-by-element forward copy
inside one buffer, exactly as the C++ call performs it. -/
def copy_n {α : Type _} [Inhabited α] : List α → Nat → Nat → Nat → List α
  | buf, _, 0, _ => buf
  | buf, src, n + 1, dest => copy_n (buf.set dest (buf.getD src default)) (src + 1) n (dest + 1)

/-! ### The data model of the full image sampler -/

/-- One output sample: physical point plus pixel value
(`ImageSample<TImage>`). -/
structure ImageSample (Point Value : Type) where
  point : Point
  value : Value
deriving DecidableEq

instance {Point Value : Type} [Inhabited Point] [Inhabited Value] :
    Inhabited (ImageSample Point Value) :=
  ⟨⟨default, default⟩⟩

/-- The input image, as the two observations the sampler makes of it:
`TransformIndexToPhysicalPoint` and `GetPixel`. -/
structure InputImage (Index Point Value : Type) where
  transformIndexToPhysicalPoint : Index → Point
  getPixel : Index → Value

/-- The mask object: its world-to-object transform
(`GetObjectToWorldTransformInverse` / `TransformPoint`) and its object-space
membership test (`IsInsideInObjectSpace`). -/
structure ImageMask (Point ObjPoint : Type) where
  worldToObjectTransformPoint : Point → ObjPoint
  isInsideInObjectSpace : ObjPoint → Bool

/-- `ImageFullSampler::WorkUnit`.  `imageRegion` is the sub-region (its index
list in iteration order); `Samples` is the work unit's sample-data pointer,
embedded as an offset into the shared sample buffer; `NumberOfSamples` as in
the C++ struct (meaningful only on the masked path). -/
structure WorkUnit (Index : Type) where
  imageRegion : List Index
  Samples : Nat
  NumberOfSamples : Nat
deriving DecidableEq

/-- The sample the sampler stores for index `idx`: the physical point of the
index together with the pixel value at the index. -/
def sampleOf {Index Point Value : Type} (img : InputImage Index Point Value) (idx : Index) :
    ImageSample Point Value :=
  ⟨img.transformIndexToPhysicalPoint idx, img.getPixel idx⟩

/-- The mask test the sampler applies at index `idx`: map the physical point
into object space with the world-to-object transform and test
`IsInsideInObjectSpace` there. -/
def isInsideMask {Index Point Value ObjPoint : Type} (mask : ImageMask Point ObjPoint)
    (img : InputImage Index Point Value) (idx : Index) : Bool :=
  mask.isInsideInObjectSpace (mask.worldToObjectTransformPoint
    (img.transformIndexToPhysicalPoint idx))

/-- The iteration loop body of `GenerateDataForWorkUnit`: walk the region in
iteration order, keeping the running write position `pos` (the C++ `samples`
pointer); at each index compute the physical point, apply the mask test when a
mask is present, and store the sample at the write position. -/
def generateLoop {Index Point Value ObjPoint : Type} [Inhabited Point] [Inhabited Value]
    (img : InputImage Index Point Value) (mask : Option (ImageMask Point ObjPoint)) :
    List Index → Nat → List (ImageSample Point Value) → Nat × List (ImageSample Point Value)
  | [], pos, buf => (pos, buf)
  | idx :: rest, pos, buf =>
    match mask with
    | some m =>
      if m.isInsideInObjectSpace (m.worldToObjectTransformPoint
          (img.transformIndexToPhysicalPoint idx)) then
        generateLoop img (some m) rest (pos + 1) (buf.set pos (sampleOf img idx))
      else
        generateLoop img (some m) rest pos buf
    | none =>
      generateLoop img (none : Option (ImageMask Point ObjPoint)) rest (pos + 1)
        (buf.set pos (sampleOf img idx))

/-- `ImageFullSampler::GenerateDataForWorkUnit<VUseMask>`: run the iteration
loop over the work unit's region starting at the unit's buffer offset; on the
masked path record `NumberOfSamples` as the number of positions advanced
(`samples - workUnit.Samples` in the C++). -/
def GenerateDataForWorkUnit {Index Point Value ObjPoint : Type} [Inhabited Point]
    [Inhabited Value] (img : InputImage Index Point Value)
    (mask : Option (ImageMask Point ObjPoint)) (wu : WorkUnit Index)
    (buf : List (ImageSample Point Value)) : WorkUnit Index × List (ImageSample Point Value) :=
  let r := generateLoop img mask wu.imageRegion wu.Samples buf
  match mask with
  | some _ => ({ wu with NumberOfSamples := r.1 - wu.Samples }, r.2)
  | none => (wu, r.2)

/-- Modelled from the spec: `Superclass::SplitRegion` (the elastix
`ImageSamplerBase` region splitter, not under src/).  Per the spec it splits
the cropped input image region into at most the requested number of per-thread
sub-regions; the sub-regions, in order, cover the region contiguously in
iteration order, each nonempty, with near-equal (ceiling-balanced) sizes. -/
def SplitRegion {Index : Type} : List Index → Nat → List (List Index)
  | _, 0 => []
  | region, m + 1 =>
    if region.isEmpty then []
    else
      region.take ((region.length + m) / (m + 1)) ::
        SplitRegion (region.drop ((region.length + m) / (m + 1))) m

/-- The work-unit construction loop of `GenerateWorkUnits`: one work unit per
sub-region, each with the running sample-data offset, which advances by
`subregion.GetNumberOfPixels()` after each sub-region; `NumberOfSamples`
starts at `size_t{}` (0). -/
def mkWorkUnits {Index : Type} : List (List Index) → Nat → List (WorkUnit Index)
  | [], _ => []
  | subregion :: rest, sampleData =>
    ⟨subregion, sampleData, 0⟩ :: mkWorkUnits rest (sampleData + subregion.length)

/-- `ImageFullSampler::GenerateWorkUnits`: split the cropped region into at
most `min numberOfWorkUnits globalMaximumNumberOfThreads` sub-regions
(`MultiThreaderBase::GetGlobalMaximumNumberOfThreads`), and give each
sub-region a work unit with the prefix-sum sample offset, starting at the
buffer's base (`samples.data()`, offset 0). -/
def GenerateWorkUnits {Index : Type} (numberOfWorkUnits globalMaximumNumberOfThreads : Nat)
    (croppedInputImageRegion : List Index) : List (WorkUnit Index) :=
  mkWorkUnits (SplitRegion croppedInputImageRegion
    (min numberOfWorkUnits globalMaximumNumberOfThreads)) 0

/-- `ImageFullSampler::UserData` (the image and mask handles plus the
work-unit vector shared with the threader callbacks). -/
structure UserData (Index Point Value ObjPoint : Type) where
  inputImage : InputImage Index Point Value
  mask : Option (ImageMask Point ObjPoint)
  workUnits : List (WorkUnit Index)

/-- `ImageFullSampler::ThreaderCallback<VUseMask>`: a work-unit ID at or above
the number of generated work units returns immediately; otherwise the
callback runs `GenerateDataForWorkUnit` on its work unit, updating that unit
and the shared sample buffer. -/
def ThreaderCallback {Index Point Value ObjPoint : Type} [Inhabited Point] [Inhabited Value]
    (ud : UserData Index Point Value ObjPoint) (buf : List (ImageSample Point Value))
    (workUnitID : Nat) : UserData Index Point Value ObjPoint × List (ImageSample Point Value) :=
  if h : ud.workUnits.length ≤ workUnitID then (ud, buf)
  else
    let r := GenerateDataForWorkUnit ud.inputImage ud.mask
      (ud.workUnits.get ⟨workUnitID, Nat.lt_of_not_le h⟩) buf
    ({ ud with workUnits := ud.workUnits.set workUnitID r.1 }, r.2)

/-- Modelled from the spec: `itk::MultiThreaderBase::SingleMethodExecute`
(external framework, not under src/).  It invokes the registered single
method once for each work-unit ID `0, …, n-1`; since the work units write to
pairwise disjoint buffer ranges the concurrent execution is embedded as the
sequential fold over the IDs. -/
def SingleMethodExecute {Index Point Value ObjPoint : Type} [Inhabited Point] [Inhabited Value]
    (n : Nat) (ud : UserData Index Point Value ObjPoint)
    (buf : List (ImageSample Point Value)) :
    UserData Index Point Value ObjPoint × List (ImageSample Point Value) :=
  (List.range n).foldl (fun s id => ThreaderCallback s.1 s.2 id) (ud, buf)

/-- The merge loop of `MultiThreadedGenerateData` on the masked path: for each
work unit after the first, `std::copy_n` its `NumberOfSamples` collected
samples from its own buffer range to the running destination position, then
advance the destination. -/
def mergeLoop {Index Point Value : Type} [Inhabited Point] [Inhabited Value] :
    List (WorkUnit Index) → List (ImageSample Point Value) → Nat →
    List (ImageSample Point Value) × Nat
  | [], buf, sampleData => (buf, sampleData)
  | wu :: rest, buf, sampleData =>
    mergeLoop rest (copy_n buf wu.Samples wu.NumberOfSamples sampleData)
      (sampleData + wu.NumberOfSamples)

/-- `ImageFullSampler::SingleThreadedGenerateData`: resize the sample vector
to the region's pixel count, run one work unit over the whole region from
offset 0, and on the masked path shrink the vector to the collected sample
count. -/
def SingleThreadedGenerateData {Index Point Value ObjPoint : Type} [Inhabited Point]
    [Inhabited Value] (img : InputImage Index Point Value)
    (mask : Option (ImageMask Point ObjPoint)) (croppedInputImageRegion : List Index)
    (samples : List (ImageSample Point Value)) : List (ImageSample Point Value) :=
  let samples0 := listResize samples croppedInputImageRegion.length
  let r := GenerateDataForWorkUnit img mask ⟨croppedInputImageRegion, 0, 0⟩ samples0
  match mask with
  | some _ => listResize r.2 r.1.NumberOfSamples
  | none => r.2

/-- `ImageFullSampler::MultiThreadedGenerateData`: resize the sample vector to
the region's pixel count, generate the work units, let the threader run the
callback over the work-unit IDs, and on the masked path compact the variable
sized per-unit partial results: start the destination after the first unit's
samples, `copy_n` each later unit's samples to the destination in work-unit
order, and shrink the vector to the final destination offset. -/
def MultiThreadedGenerateData {Index Point Value ObjPoint : Type} [Inhabited Point]
    [Inhabited Value] (numberOfWorkUnits globalMaximumNumberOfThreads : Nat)
    (img : InputImage Index Point Value) (mask : Option (ImageMask Point ObjPoint))
    (croppedInputImageRegion : List Index) (samples : List (ImageSample Point Value)) :
    List (ImageSample Point Value) :=
  let samples0 := listResize samples croppedInputImageRegion.length
  let ud : UserData Index Point Value ObjPoint :=
    ⟨img, mask, GenerateWorkUnits numberOfWorkUnits globalMaximumNumberOfThreads
      croppedInputImageRegion⟩
  let r := SingleMethodExecute numberOfWorkUnits ud samples0
  match mask with
  | none => r.2
  | some _ =>
    match r.1.workUnits with
    | [] => r.2
    | front :: rest =>
      let m := mergeLoop rest r.2 front.NumberOfSamples
      listResize m.1 m.2

/-- `ImageFullSampler::GenerateData`: swap the output container's contents
into a local vector and clear it (so generation starts from an empty vector,
whatever the container held before), then run the multi-threaded or the
single-threaded path over the cropped input image region, and swap the result
back into the output container. -/
def GenerateData {Index Point Value ObjPoint : Type} [Inhabited Point] [Inhabited Value]
    (img : InputImage Index Point Value) (mask : Option (ImageMask Point ObjPoint))
    (useMultiThread : Bool) (numberOfWorkUnits globalMaximumNumberOfThreads : Nat)
    (croppedInputImageRegion : List Index) (outputContainer : List (ImageSample Point Value)) :
    List (ImageSample Point Value) :=
  let sampleVector : List (ImageSample Point Value) := outputContainer.take 0
  if useMultiThread then
    MultiThreadedGenerateData numberOfWorkUnits globalMaximumNumberOfThreads img mask
      croppedInputImageRegion sampleVector
  else
    SingleThreadedGenerateData img mask croppedInputImageRegion sampleVector

/-! ### Specification-side descriptions used in the statements -/

/-- The ordered samples a region contributes: every index's sample in
iteration order, restricted by the mask test when a mask is present. -/
def producedSamples {Index Point Value ObjPoint : Type} (img : InputImage Index Point Value)
    (mask : Option (ImageMask Point ObjPoint)) (region : List Index) :
    List (ImageSample Point Value) :=
  match mask with
  | none => region.map (sampleOf img)
  | some m => (region.filter (isInsideMask m img)).map (sampleOf img)

/-- The work unit as `GenerateDataForWorkUnit` leaves it: on the masked path
`NumberOfSamples` becomes the number of collected samples, otherwise the unit
is unchanged. -/
def executedUnit {Index Point Value ObjPoint : Type} (img : InputImage Index Point Value)
    (mask : Option (ImageMask Point ObjPoint)) (wu : WorkUnit Index) : WorkUnit Index :=
  match mask with
  | some _ => { wu with NumberOfSamples := (producedSamples img mask wu.imageRegion).length }
  | none => wu

/-- The work-unit list after every callback has run: each unit executed, with
the same prefix-sum offsets. -/
def unitsAfter {Index Point Value ObjPoint : Type} (img : InputImage Index Point Value)
    (mask : Option (ImageMask Point ObjPoint)) :
    List (List Index) → Nat → List (WorkUnit Index)
  | [], _ => []
  | part :: rest, b =>
    executedUnit img mask ⟨part, b, 0⟩ :: unitsAfter img mask rest (b + part.length)

/-- The shared buffer, block by block, after every callback has run: each
sub-region's block holds its produced samples followed by the untouched rest
of the block (`tail` is the buffer contents the blocks started from). -/
def overlayBlocks {Index Point Value ObjPoint : Type} (img : InputImage Index Point Value)
    (mask : Option (ImageMask Point ObjPoint)) :
    List (List Index) → List (ImageSample Point Value) → List (List (ImageSample Point Value))
  | [], _ => []
  | part :: rest, tail =>
    (producedSamples img mask part ++
      (tail.take part.length).drop (producedSamples img mask part).length)
      :: overlayBlocks img mask rest (tail.drop part.length)

/-! ### Basic lemmas about the buffer primitives -/

theorem length_listResize {α : Type _} [Inhabited α] (l : List α) (n : Nat) :
    (listResize l n).length = n := by
  simp [listResize]
  omega

theorem listResize_of_le {α : Type _} [Inhabited α] (l : List α) (n : Nat)
    (h : n ≤ l.length) : listResize l n = l.take n := by
  simp [listResize, Nat.sub_eq_zero_of_le h]

theorem writeAt_nil {α : Type _} (buf : List α) (s : Nat) :
    writeAt buf s [] = buf := by
  simp [writeAt]

theorem length_writeAt {α : Type _} (buf : List α) (s : Nat) (xs : List α)
    (h : s + xs.length ≤ buf.length) : (writeAt buf s xs).length = buf.length := by
  simp [writeAt]
  omega

theorem writeAt_set_cons {α : Type _} (buf : List α) (pos : Nat) (v : α) (xs : List α)
    (h : pos < buf.length) :
    writeAt (buf.set pos v) (pos + 1) xs = writeAt buf pos (v :: xs) := by
  unfold writeAt
  rw [List.set_take, List.drop_set]
  rw [if_pos (by omega : pos < pos + 1 + xs.length)]
  have htake : buf.take (pos + 1) = buf.take pos ++ [buf.get ⟨pos, h⟩] := by
    rw [List.take_succ]
    simp [List.getElem?_eq_getElem h]
  rw [htake, List.set_append]
  have hlen : (buf.take pos).length = pos := by
    simp [List.length_take]
    omega
  rw [if_neg (by omega), hlen, Nat.sub_self]
  simp [List.append_assoc]
  congr 1
  omega

theorem copy_n_spec {α : Type _} [Inhabited α] :
    ∀ (n : Nat) (buf : List α) (src dest : Nat), dest ≤ src → src + n ≤ buf.length →
      copy_n buf src n dest = writeAt buf dest ((buf.drop src).take n)
  | 0, buf, src, dest, _, _ => by
    simp [copy_n, writeAt]
  | n + 1, buf, src, dest, hds, hlen => by
    have hsrc : src < buf.length := by omega
    rw [copy_n]
    rw [copy_n_spec n _ (src + 1) (dest + 1) (by omega) (by simp; omega)]
    have hdrop : (buf.set dest (buf.getD src default)).drop (src + 1) = buf.drop (src + 1) := by
      rw [List.drop_set, if_pos (by omega)]
    rw [hdrop, writeAt_set_cons _ _ _ _ (by omega)]
    congr 1
    rw [List.getD_eq_getElem _ _ hsrc]
    rw [List.drop_eq_getElem_cons hsrc, List.take_succ_cons]

/-- Splitting a `drop` at an intermediate index. -/
theorem drop_split {α : Type _} (l : List α) (p k : Nat) (h : p ≤ k) :
    l.drop p = (l.take k).drop p ++ l.drop k := by
  conv_lhs => rw [← List.take_append_drop k l]
  rw [List.drop_append_eq_append_drop]
  rcases Nat.lt_or_ge (l.take k).length p with h1 | h1
  · have h0 : (l.take k).length = min k l.length := List.length_take k l
    have h2 : l.length ≤ k := by omega
    have h3 : l.length ≤ p := by omega
    rw [List.take_of_length_le h2, List.drop_of_length_le h2, List.drop_of_length_le h3]
    simp
  · rw [Nat.sub_eq_zero_of_le h1, List.drop_zero]

/-! ### Basic lemmas about `producedSamples` -/

theorem producedSamples_nil {Index Point Value ObjPoint : Type}
    (img : InputImage Index Point Value) (mask : Option (ImageMask Point ObjPoint)) :
    producedSamples img mask [] = [] := by
  cases mask <;> simp [producedSamples]

theorem producedSamples_cons_none {Index Point Value ObjPoint : Type}
    (img : InputImage Index Point Value) (idx : Index) (rest : List Index) :
    producedSamples img (none : Option (ImageMask Point ObjPoint)) (idx :: rest) =
      sampleOf img idx ::
        producedSamples img (none : Option (ImageMask Point ObjPoint)) rest := by
  simp [producedSamples]

theorem producedSamples_cons_some {Index Point Value ObjPoint : Type}
    (img : InputImage Index Point Value) (m : ImageMask Point ObjPoint) (idx : Index)
    (rest : List Index) :
    producedSamples img (some m) (idx :: rest) =
      (if isInsideMask m img idx then [sampleOf img idx] else []) ++
        producedSamples img (some m) rest := by
  simp only [producedSamples, List.filter_cons]
  by_cases h : isInsideMask m img idx <;> simp [h]

theorem length_producedSamples_le {Index Point Value ObjPoint : Type}
    (img : InputImage Index Point Value) (mask : Option (ImageMask Point ObjPoint))
    (region : List Index) : (producedSamples img mask region).length ≤ region.length := by
  cases mask with
  | none => simp [producedSamples]
  | some m =>
    simp only [producedSamples, List.length_map]
    exact List.length_filter_le _ _

theorem producedSamples_append {Index Point Value ObjPoint : Type}
    (img : InputImage Index Point Value) (mask : Option (ImageMask Point ObjPoint))
    (r1 r2 : List Index) :
    producedSamples img mask (r1 ++ r2) =
      producedSamples img mask r1 ++ producedSamples img mask r2 := by
  cases mask <;> simp [producedSamples]

theorem producedSamples_flatten {Index Point Value ObjPoint : Type}
    (img : InputImage Index Point Value) (mask : Option (ImageMask Point ObjPoint))
    (L : List (List Index)) :
    producedSamples img mask L.flatten = (L.map (producedSamples img mask)).flatten := by
  induction L with
  | nil => simp [producedSamples_nil]
  | cons a L ih => simp [List.flatten_cons, producedSamples_append, ih]

/-! ### Characterisation of the per-work-unit collection loop -/

theorem generateLoop_eq {Index Point Value ObjPoint : Type} [Inhabited Point] [Inhabited Value]
    (img : InputImage Index Point Value) (mask : Option (ImageMask Point ObjPoint))
    (region : List Index) :
    ∀ (pos : Nat) (buf : List (ImageSample Point Value)), pos + region.length ≤ buf.length →
      generateLoop img mask region pos buf =
        (pos + (producedSamples img mask region).length,
         writeAt buf pos (producedSamples img mask region)) := by
  induction region with
  | nil =>
    intro pos buf h
    simp [generateLoop, producedSamples_nil, writeAt_nil]
  | cons idx rest ih =>
    intro pos buf h
    have hpos : pos < buf.length := by
      simp at h
      omega
    cases mask with
    | none =>
      rw [generateLoop, ih (pos + 1) (buf.set pos (sampleOf img idx)) (by simp at h ⊢; omega)]
      rw [writeAt_set_cons _ _ _ _ hpos, producedSamples_cons_none]
      simp
      omega
    | some m =>
      rw [generateLoop]
      have hcond : m.isInsideInObjectSpace
          (m.worldToObjectTransformPoint (img.transformIndexToPhysicalPoint idx)) =
            isInsideMask m img idx := rfl
      rw [hcond]
      by_cases hin : isInsideMask m img idx
      · rw [if_pos hin, ih (pos + 1) (buf.set pos (sampleOf img idx)) (by simp at h ⊢; omega)]
        rw [writeAt_set_cons _ _ _ _ hpos, producedSamples_cons_some, if_pos hin]
        simp
        omega
      · rw [if_neg hin, ih pos buf (by simp at h ⊢; omega)]
        rw [producedSamples_cons_some, if_neg hin]
        simp

theorem GenerateDataForWorkUnit_eq {Index Point Value ObjPoint : Type} [Inhabited Point]
    [Inhabited Value] (img : InputImage Index Point Value)
    (mask : Option (ImageMask Point ObjPoint)) (wu : WorkUnit Index)
    (buf : List (ImageSample Point Value)) (h : wu.Samples + wu.imageRegion.length ≤ buf.length) :
    GenerateDataForWorkUnit img mask wu buf =
      (executedUnit img mask wu,
       writeAt buf wu.Samples (producedSamples img mask wu.imageRegion)) := by
  unfold GenerateDataForWorkUnit
  rw [generateLoop_eq img mask wu.imageRegion wu.Samples buf h]
  cases mask with
  | some m => simp [executedUnit]
  | none => simp [executedUnit]

/-! ### Lemmas about the region split and the work units -/

theorem SplitRegion_flatten_succ {Index : Type} :
    ∀ (m : Nat) (region : List Index), (SplitRegion region (m + 1)).flatten = region
  | 0, region => by
    rw [SplitRegion]
    by_cases h : region.isEmpty
    · rw [if_pos h]
      simp [List.isEmpty_iff.mp h]
    · rw [if_neg h]
      simp [SplitRegion]
  | m + 1, region => by
    rw [SplitRegion]
    by_cases h : region.isEmpty
    · rw [if_pos h]
      simp [List.isEmpty_iff.mp h]
    · rw [if_neg h]
      rw [List.flatten_cons, SplitRegion_flatten_succ m]
      exact List.take_append_drop _ region

theorem SplitRegion_flatten {Index : Type} (region : List Index) (m : Nat) (h : 1 ≤ m) :
    (SplitRegion region m).flatten = region := by
  obtain ⟨m', rfl⟩ : ∃ m', m = m' + 1 := ⟨m - 1, by omega⟩
  exact SplitRegion_flatten_succ m' region

theorem SplitRegion_length_le {Index : Type} :
    ∀ (m : Nat) (region : List Index), (SplitRegion region m).length ≤ m
  | 0, _ => by
    rw [SplitRegion]
    simp
  | m + 1, region => by
    rw [SplitRegion]
    by_cases h : region.isEmpty
    · rw [if_pos h]
      simp
    · rw [if_neg h]
      simpa using SplitRegion_length_le m (region.drop ((region.length + m) / (m + 1)))

theorem mkWorkUnits_length {Index : Type} :
    ∀ (parts : List (List Index)) (b : Nat), (mkWorkUnits parts b).length = parts.length
  | [], _ => rfl
  | part :: rest, b => by
    rw [mkWorkUnits, List.length_cons, mkWorkUnits_length rest, List.length_cons]

theorem mkWorkUnits_map_region {Index : Type} :
    ∀ (parts : List (List Index)) (b : Nat),
      (mkWorkUnits parts b).map WorkUnit.imageRegion = parts
  | [], _ => rfl
  | part :: rest, b => by
    rw [mkWorkUnits, List.map_cons, mkWorkUnits_map_region rest]

theorem mkWorkUnits_get {Index : Type} :
    ∀ (parts : List (List Index)) (b : Nat) (i : Nat) (hi : i < parts.length),
      (mkWorkUnits parts b).get ⟨i, by rw [mkWorkUnits_length]; exact hi⟩ =
        ⟨parts.get ⟨i, hi⟩, b + ((parts.take i).map List.length).sum, 0⟩
  | part :: rest, b, 0, hi => by
    simp [mkWorkUnits]
  | part :: rest, b, i + 1, hi => by
    simp only [mkWorkUnits]
    have := mkWorkUnits_get rest (b + part.length) i (by simpa using hi)
    simp only [List.get_cons_succ, List.take_succ_cons, List.map_cons, List.sum_cons] at this ⊢
    rw [this]
    congr 1
    omega

/-! ### The threaded execution phase -/

theorem ThreaderCallback_at {Index Point Value ObjPoint : Type} [Inhabited Point]
    [Inhabited Value] (img : InputImage Index Point Value)
    (mask : Option (ImageMask Point ObjPoint)) (units1 : List (WorkUnit Index))
    (u : WorkUnit Index) (units2 : List (WorkUnit Index))
    (buf : List (ImageSample Point Value))
    (hbuf : u.Samples + u.imageRegion.length ≤ buf.length) :
    ThreaderCallback ⟨img, mask, units1 ++ u :: units2⟩ buf units1.length =
      (⟨img, mask, units1 ++ executedUnit img mask u :: units2⟩,
       writeAt buf u.Samples (producedSamples img mask u.imageRegion)) := by
  unfold ThreaderCallback
  rw [dif_neg (by simp)]
  have hget : ∀ (hh : units1.length < (units1 ++ u :: units2).length),
      (units1 ++ u :: units2).get ⟨units1.length, hh⟩ = u := by
    intro hh
    rw [List.get_eq_getElem, List.getElem_append_right (Nat.le_refl _)]
    simp
  simp only [hget]
  rw [GenerateDataForWorkUnit_eq img mask u buf hbuf]
  have hset : (units1 ++ u :: units2).set units1.length (executedUnit img mask u) =
      units1 ++ executedUnit img mask u :: units2 := by
    rw [List.set_append, if_neg (by omega), Nat.sub_self, List.set_cons_zero]
  simp [hset]

theorem foldl_callback_noop {Index Point Value ObjPoint : Type} [Inhabited Point]
    [Inhabited Value] :
    ∀ (n k : Nat) (ud : UserData Index Point Value ObjPoint)
      (buf : List (ImageSample Point Value)), ud.workUnits.length ≤ k →
      (List.range' k n).foldl (fun s id => ThreaderCallback s.1 s.2 id) (ud, buf) = (ud, buf)
  | 0, k, ud, buf, _ => by simp [List.range']
  | n + 1, k, ud, buf, h => by
    rw [List.range'_succ, List.foldl_cons]
    have hstep : ThreaderCallback ud buf k = (ud, buf) := by
      unfold ThreaderCallback
      rw [dif_pos h]
    rw [hstep]
    exact foldl_callback_noop n (k + 1) ud buf (by omega)

theorem exec_aux {Index Point Value ObjPoint : Type} [Inhabited Point] [Inhabited Value]
    (img : InputImage Index Point Value) (mask : Option (ImageMask Point ObjPoint))
    (parts : List (List Index)) :
    ∀ (units1 : List (WorkUnit Index)) (pre tail : List (ImageSample Point Value)) (n : Nat),
      parts.length ≤ n → tail.length = (parts.map List.length).sum →
      (List.range' units1.length n).foldl (fun s id => ThreaderCallback s.1 s.2 id)
          (⟨img, mask, units1 ++ mkWorkUnits parts pre.length⟩, pre ++ tail) =
        (⟨img, mask, units1 ++ unitsAfter img mask parts pre.length⟩,
         pre ++ (overlayBlocks img mask parts tail).flatten) := by
  induction parts with
  | nil =>
    intro units1 pre tail n _ htail
    have htn : tail = [] := List.eq_nil_of_length_eq_zero (by simpa using htail)
    subst htn
    simp only [mkWorkUnits, unitsAfter, overlayBlocks, List.append_nil, List.flatten_nil]
    exact foldl_callback_noop n units1.length _ _ (by simp)
  | cons part rest ih =>
    intro units1 pre tail n hn htail
    obtain ⟨n', rfl⟩ : ∃ n', n = n' + 1 := ⟨n - 1, by simp at hn; omega⟩
    rw [List.range'_succ, List.foldl_cons]
    have hlen_tail : part.length ≤ tail.length := by
      simp at htail
      omega
    have hple : (producedSamples img mask part).length ≤ part.length :=
      length_producedSamples_le img mask part
    simp only [mkWorkUnits]
    rw [ThreaderCallback_at img mask units1 ⟨part, pre.length, 0⟩ _ (pre ++ tail)
      (by simp; omega)]
    have hbufeq : writeAt (pre ++ tail) pre.length (producedSamples img mask part) =
        (pre ++ (producedSamples img mask part ++
          (tail.take part.length).drop (producedSamples img mask part).length)) ++
          tail.drop part.length := by
      unfold writeAt
      rw [List.take_left' rfl, List.drop_append, drop_split tail _ part.length hple]
      simp [List.append_assoc]
    rw [hbufeq]
    have hexec : executedUnit img mask (⟨part, pre.length, 0⟩ : WorkUnit Index) =
        executedUnit img mask ⟨part, pre.length, 0⟩ := rfl
    have hblock : (pre ++ (producedSamples img mask part ++
        (tail.take part.length).drop (producedSamples img mask part).length)).length =
          pre.length + part.length := by
      simp
      omega
    have hstep := ih (units1 ++ [executedUnit img mask ⟨part, pre.length, 0⟩])
      (pre ++ (producedSamples img mask part ++
        (tail.take part.length).drop (producedSamples img mask part).length))
      (tail.drop part.length) n' (by simp at hn ⊢; omega) (by simp at htail ⊢; omega)
    rw [hblock] at hstep
    rw [List.append_cons units1 (executedUnit img mask ⟨part, pre.length, 0⟩)]
    have harg : (units1 ++ [executedUnit img mask ⟨part, pre.length, 0⟩]).length =
        units1.length + 1 := by simp
    rw [← harg]
    rw [hstep]
    simp only [unitsAfter, overlayBlocks, List.flatten_cons]
    simp [List.append_assoc]

/-! ### The merge (compaction) phase of the masked multi-threaded path -/

theorem merge_spec {Index Point Value ObjPoint : Type} [Inhabited Point] [Inhabited Value]
    (img : InputImage Index Point Value) (m : ImageMask Point ObjPoint)
    (parts : List (List Index)) :
    ∀ (done junk tail : List (ImageSample Point Value)),
      tail.length = (parts.map List.length).sum →
      ∃ residual,
        mergeLoop (unitsAfter img (some m) parts (done.length + junk.length))
            (done ++ junk ++ (overlayBlocks img (some m) parts tail).flatten) done.length =
          (done ++ (parts.map (producedSamples img (some m))).flatten ++ residual,
           done.length + ((parts.map (producedSamples img (some m))).map List.length).sum) := by
  induction parts with
  | nil =>
    intro done junk tail _
    refine ⟨junk, ?_⟩
    simp [unitsAfter, overlayBlocks, mergeLoop]
  | cons part rest ih =>
    intro done junk tail htail
    have hlen_tail : part.length ≤ tail.length := by
      simp at htail
      omega
    have hple : (producedSamples img (some m) part).length ≤ part.length :=
      length_producedSamples_le img (some m) part
    simp only [unitsAfter, overlayBlocks, List.flatten_cons, mergeLoop]
    have hexec : executedUnit img (some m) (⟨part, done.length + junk.length, 0⟩ : WorkUnit Index) =
        ⟨part, done.length + junk.length,
          (producedSamples img (some m) part).length⟩ := rfl
    rw [hexec]
    set prod := producedSamples img (some m) part with hprod
    set gap := (tail.take part.length).drop prod.length with hgap
    set F := (overlayBlocks img (some m) rest (tail.drop part.length)).flatten with hF
    have hgaplen : gap.length = part.length - prod.length := by
      rw [hgap]
      simp
      omega
    -- the copy_n step
    have hbuflen : (done ++ junk ++ (prod ++ gap ++ F)).length =
        done.length + junk.length + (prod.length + gap.length + F.length) := by
      simp
      omega
    have hcopy : copy_n (done ++ junk ++ (prod ++ gap ++ F)) (done.length + junk.length)
        prod.length done.length =
          (done ++ prod) ++ ((junk ++ prod).drop prod.length ++ gap) ++ F := by
      rw [copy_n_spec prod.length _ _ _ (by omega) (by rw [hbuflen]; omega)]
      rw [List.drop_left' (by simp : (done ++ junk).length = done.length + junk.length)]
      rw [List.append_assoc prod gap F, List.take_left' rfl]
      unfold writeAt
      rw [List.append_assoc done junk, List.take_left' rfl, List.drop_append]
      rw [show junk ++ (prod ++ (gap ++ F)) = (junk ++ prod) ++ (gap ++ F) from
        (List.append_assoc junk prod (gap ++ F)).symm]
      rw [List.drop_append_eq_append_drop, Nat.sub_eq_zero_of_le (by simp), List.drop_zero]
      simp [List.append_assoc]
    rw [hcopy]
    have hbase : done.length + junk.length + part.length =
        (done ++ prod).length + ((junk ++ prod).drop prod.length ++ gap).length := by
      simp
      omega
    obtain ⟨residual, heq⟩ := ih (done ++ prod) ((junk ++ prod).drop prod.length ++ gap)
      (tail.drop part.length) (by simp at htail ⊢; omega)
    rw [← hbase] at heq
    refine ⟨residual, ?_⟩
    rw [show done.length + prod.length = (done ++ prod).length by simp]
    rw [heq]
    simp only [Prod.mk.injEq, List.map_cons, List.flatten_cons, List.sum_cons]
    constructor
    · simp [List.append_assoc]
    · rw [← hprod, List.length_append]
      omega

/-! ### End-to-end characterisation of the two generation paths -/

theorem overlayBlocks_none {Index Point Value ObjPoint : Type}
    (img : InputImage Index Point Value) :
    ∀ (parts : List (List Index)) (tail : List (ImageSample Point Value)),
      overlayBlocks img (none : Option (ImageMask Point ObjPoint)) parts tail =
        parts.map (producedSamples img (none : Option (ImageMask Point ObjPoint)))
  | [], _ => rfl
  | part :: rest, tail => by
    rw [overlayBlocks, overlayBlocks_none img rest, List.map_cons]
    have hlen : (producedSamples img (none : Option (ImageMask Point ObjPoint)) part).length =
        part.length := by
      simp [producedSamples]
    rw [hlen, List.drop_of_length_le (by simp), List.append_nil]

theorem SingleThreadedGenerateData_eq {Index Point Value ObjPoint : Type} [Inhabited Point]
    [Inhabited Value] (img : InputImage Index Point Value)
    (mask : Option (ImageMask Point ObjPoint)) (region : List Index)
    (samples : List (ImageSample Point Value)) :
    SingleThreadedGenerateData img mask region samples = producedSamples img mask region := by
  have hbuf : (0 : Nat) + region.length ≤ (listResize samples region.length).length := by
    rw [length_listResize]
    omega
  have hwu : ((⟨region, 0, 0⟩ : WorkUnit Index).Samples +
      (⟨region, 0, 0⟩ : WorkUnit Index).imageRegion.length ≤
        (listResize samples region.length).length) := hbuf
  cases mask with
  | none =>
    simp only [SingleThreadedGenerateData]
    rw [GenerateDataForWorkUnit_eq img _ ⟨region, 0, 0⟩ _ hwu]
    have hplen :
        (producedSamples img (none : Option (ImageMask Point ObjPoint)) region).length =
          region.length := by
      simp [producedSamples]
    unfold writeAt
    rw [List.take_zero, List.nil_append, Nat.zero_add, hplen,
      List.drop_of_length_le (by rw [length_listResize]), List.append_nil]
  | some m =>
    simp only [SingleThreadedGenerateData]
    rw [GenerateDataForWorkUnit_eq img _ ⟨region, 0, 0⟩ _ hwu]
    have hexec : executedUnit img (some m) (⟨region, 0, 0⟩ : WorkUnit Index) =
        ⟨region, 0, (producedSamples img (some m) region).length⟩ := rfl
    rw [hexec]
    unfold writeAt
    rw [List.take_zero, List.nil_append, Nat.zero_add]
    rw [listResize_of_le _ _ (by simp)]
    rw [List.take_left' rfl]

theorem MultiThreadedGenerateData_eq {Index Point Value ObjPoint : Type} [Inhabited Point]
    [Inhabited Value] (img : InputImage Index Point Value)
    (mask : Option (ImageMask Point ObjPoint)) (region : List Index)
    (samples : List (ImageSample Point Value)) (n g : Nat) (hn : 1 ≤ n) (hg : 1 ≤ g) :
    MultiThreadedGenerateData n g img mask region samples =
      producedSamples img mask region := by
  have hflat : (SplitRegion region (min n g)).flatten = region :=
    SplitRegion_flatten region _ (by omega)
  have hsum : (listResize samples region.length).length =
      ((SplitRegion region (min n g)).map List.length).sum := by
    rw [length_listResize, ← List.length_flatten, hflat]
  have hnparts : (SplitRegion region (min n g)).length ≤ n :=
    le_trans (SplitRegion_length_le _ _) (by omega)
  simp only [MultiThreadedGenerateData, GenerateWorkUnits, SingleMethodExecute]
  rw [List.range_eq_range']
  have hexec := exec_aux img mask (SplitRegion region (min n g)) [] []
    (listResize samples region.length) n hnparts hsum
  simp only [List.nil_append, List.length_nil] at hexec
  rw [hexec]
  cases mask with
  | none =>
    rw [overlayBlocks_none, ← producedSamples_flatten, hflat]
  | some m =>
    cases hp : SplitRegion region (min n g) with
    | nil =>
      have hreg : region = [] := by
        rw [← hflat, hp, List.flatten_nil]
      simp [unitsAfter, overlayBlocks, producedSamples_nil, hreg]
    | cons part0 restParts =>
      rw [hp] at hflat hsum
      simp only [unitsAfter, overlayBlocks, List.flatten_cons]
      have hexec0 : executedUnit img (some m) (⟨part0, 0, 0⟩ : WorkUnit Index) =
          ⟨part0, 0, (producedSamples img (some m) part0).length⟩ := rfl
      rw [hexec0]
      have hple : (producedSamples img (some m) part0).length ≤ part0.length :=
        length_producedSamples_le img (some m) part0
      have hlen0 : part0.length ≤ (listResize samples region.length).length := by
        rw [hsum]
        simp only [List.map_cons, List.sum_cons]
        omega
      have hgaplen :
          (((listResize samples region.length).take part0.length).drop
            (producedSamples img (some m) part0).length).length =
              part0.length - (producedSamples img (some m) part0).length := by
        simp
        omega
      have hbase : (0 : Nat) + part0.length =
          (producedSamples img (some m) part0).length +
            (((listResize samples region.length).take part0.length).drop
              (producedSamples img (some m) part0).length).length := by
        rw [hgaplen]
        omega
      obtain ⟨residual, heq⟩ := merge_spec img m restParts
        (producedSamples img (some m) part0)
        (((listResize samples region.length).take part0.length).drop
          (producedSamples img (some m) part0).length)
        ((listResize samples region.length).drop part0.length)
        (by simp at hsum ⊢; omega)
      rw [← hbase] at heq
      rw [heq]
      have hflatlen :
          ((restParts.map (producedSamples img (some m))).map List.length).sum =
            (restParts.map (producedSamples img (some m))).flatten.length := by
        rw [List.length_flatten]
      rw [hflatlen]
      have htake : (producedSamples img (some m) part0).length +
          (restParts.map (producedSamples img (some m))).flatten.length =
            (producedSamples img (some m) part0 ++
              (restParts.map (producedSamples img (some m))).flatten).length := by
        simp
      rw [htake, listResize_of_le _ _ (by simp [List.append_assoc])]
      rw [List.take_left' rfl]
      rw [← List.flatten_cons, ← List.map_cons, ← producedSamples_flatten]
      rw [hflat]

/-! ### Auxiliary order lemma for the prefix-sum offsets -/

theorem sum_take_le_sum_take (L : List Nat) (i j : Nat) (h : i ≤ j) :
    (L.take i).sum ≤ (L.take j).sum := by
  conv_rhs => rw [← List.take_append_drop i (L.take j)]
  rw [List.sum_append, List.take_take, Nat.min_eq_left h]
  omega

theorem sum_map_take_succ_le {Index : Type} (L : List (List Index)) (i j : Nat)
    (hi : i < L.length) (hij : i < j) :
    ((L.take i).map List.length).sum + (L.get ⟨i, hi⟩).length ≤
      ((L.take j).map List.length).sum := by
  have h1 : ((L.map List.length).take (i + 1)).sum =
      ((L.take i).map List.length).sum + (L.get ⟨i, hi⟩).length := by
    rw [List.sum_take_succ _ i (by simpa using hi)]
    rw [List.map_take]
    congr 1
    rw [List.get_eq_getElem, List.getElem_map]
  rw [← h1, List.map_take]
  exact sum_take_le_sum_take _ (i + 1) j hij

/-! ### Example instances used by the witnesses -/

/-- A concrete 1-D image: index `i` has physical point `10 * i` and pixel
value `i + 100`. -/
def exImage : InputImage Nat Nat Nat := ⟨fun i => i * 10, fun i => i + 100⟩

/-- A concrete mask: world-to-object adds 1; object-space membership is
`q % 4 == 1`, so exactly the even indices of `exImage` pass. -/
def exMask : ImageMask Nat Nat := ⟨fun p => p + 1, fun q => q % 4 == 1⟩

/-! ### The claims about the full image sampler -/

/-- C1: for every input image, optional mask, and cropped input image region,
the multi-threaded sampling path (split into work units, run
`GenerateDataForWorkUnit` per unit, concatenate the per-unit partial results
in work-unit order) produces exactly the same ordered sample sequence as the
single-threaded path over the whole region, whatever either path's sample
vector held before (the requested work-unit count and the global maximum
thread count are at least 1, as ITK guarantees). -/
theorem multiThreaded_eq_singleThreaded {Index Point Value ObjPoint : Type} [Inhabited Point]
    [Inhabited Value] (img : InputImage Index Point Value)
    (mask : Option (ImageMask Point ObjPoint)) (region : List Index)
    (s1 s2 : List (ImageSample Point Value)) (n g : Nat) (hn : 1 ≤ n) (hg : 1 ≤ g) :
    MultiThreadedGenerateData n g img mask region s1 =
      SingleThreadedGenerateData img mask region s2 := by
  rw [MultiThreadedGenerateData_eq img mask region s1 n g hn hg,
    SingleThreadedGenerateData_eq img mask region s2]

/-- C1 witness: the two paths agree on a concrete masked 5-pixel region with
2 requested work units. -/
theorem multiThreaded_eq_singleThreaded_witness :
    1 ≤ 2 ∧ 1 ≤ 8 ∧
      MultiThreadedGenerateData 2 8 exImage (some exMask) [0, 1, 2, 3, 4] [] =
        SingleThreadedGenerateData exImage (some exMask) [0, 1, 2, 3, 4]
          [⟨9, 9⟩, ⟨7, 7⟩] :=
  ⟨by decide, by decide,
    multiThreaded_eq_singleThreaded exImage (some exMask) [0, 1, 2, 3, 4] []
      [⟨9, 9⟩, ⟨7, 7⟩] 2 8 (by decide) (by decide)⟩

/-- C2: with no mask set, the single-threaded full sampler produces exactly
one sample per pixel of the cropped input image region, in the region's
iteration (index) order, each sample holding the pixel's physical point and
its pixel value; the output count equals the region's pixel count. -/
theorem singleThreaded_noMask_all_pixels {Index Point Value ObjPoint : Type} [Inhabited Point]
    [Inhabited Value] (img : InputImage Index Point Value) (region : List Index)
    (samples : List (ImageSample Point Value)) :
    SingleThreadedGenerateData img (none : Option (ImageMask Point ObjPoint)) region samples =
        region.map (sampleOf img) ∧
      (SingleThreadedGenerateData img (none : Option (ImageMask Point ObjPoint)) region
        samples).length = region.length := by
  have h := SingleThreadedGenerateData_eq img (none : Option (ImageMask Point ObjPoint))
    region samples
  rw [producedSamples] at h
  exact ⟨h, by rw [h, List.length_map]⟩

/-- C3: with a mask set, a pixel of the cropped input image region
contributes a sample exactly when its physical point, mapped by the mask's
world-to-object transform, lies inside the mask in object space (the
filter-characterisation below); the final output is the concatenation of the
per-work-unit partial outputs in work-unit order, and its length is the sum
of the per-unit sample counts, at most the region's pixel count. -/
theorem multiThreaded_mask_filter_concat {Index Point Value ObjPoint : Type} [Inhabited Point]
    [Inhabited Value] (img : InputImage Index Point Value) (m : ImageMask Point ObjPoint)
    (region : List Index) (samples : List (ImageSample Point Value)) (n g : Nat)
    (hn : 1 ≤ n) (hg : 1 ≤ g) :
    MultiThreadedGenerateData n g img (some m) region samples =
        (region.filter (isInsideMask m img)).map (sampleOf img) ∧
      MultiThreadedGenerateData n g img (some m) region samples =
        ((SplitRegion region (min n g)).map (producedSamples img (some m))).flatten ∧
      (MultiThreadedGenerateData n g img (some m) region samples).length =
        (((SplitRegion region (min n g)).map (producedSamples img (some m))).map
          List.length).sum ∧
      (MultiThreadedGenerateData n g img (some m) region samples).length ≤
        region.length := by
  have h := MultiThreadedGenerateData_eq img (some m) region samples n g hn hg
  have hflat : (SplitRegion region (min n g)).flatten = region :=
    SplitRegion_flatten region _ (by omega)
  have hconcat : MultiThreadedGenerateData n g img (some m) region samples =
      ((SplitRegion region (min n g)).map (producedSamples img (some m))).flatten := by
    rw [h, ← producedSamples_flatten, hflat]
  refine ⟨by rw [h]; rfl, hconcat, ?_, ?_⟩
  · rw [hconcat, List.length_flatten]
  · rw [h]
    exact length_producedSamples_le img (some m) region

/-- C3 witness: the masked multi-threaded output on a concrete region equals
the mask-filtered sample list, is the concatenation of the per-unit partial
outputs, and its length (3) is the per-unit sum, at most the 5 pixels. -/
theorem multiThreaded_mask_filter_concat_witness :
    1 ≤ 3 ∧ 1 ≤ 2 ∧
      (MultiThreadedGenerateData 3 2 exImage (some exMask) [0, 1, 2, 3, 4] [] =
          ([0, 1, 2, 3, 4].filter (isInsideMask exMask exImage)).map (sampleOf exImage) ∧
        MultiThreadedGenerateData 3 2 exImage (some exMask) [0, 1, 2, 3, 4] [] =
          ((SplitRegion [0, 1, 2, 3, 4] (min 3 2)).map
            (producedSamples exImage (some exMask))).flatten ∧
        (MultiThreadedGenerateData 3 2 exImage (some exMask) [0, 1, 2, 3, 4] []).length =
          (((SplitRegion [0, 1, 2, 3, 4] (min 3 2)).map
            (producedSamples exImage (some exMask))).map List.length).sum ∧
        (MultiThreadedGenerateData 3 2 exImage (some exMask) [0, 1, 2, 3, 4] []).length ≤
          ([0, 1, 2, 3, 4] : List Nat).length) :=
  ⟨by decide, by decide,
    multiThreaded_mask_filter_concat exImage exMask [0, 1, 2, 3, 4] [] 3 2
      (by decide) (by decide)⟩

/-- C4: `GenerateWorkUnits` gives each work unit one sub-region of the split
of the cropped region, with a sample-buffer start offset equal to the sum of
the pixel counts of all preceding sub-regions (a prefix sum); the sub-regions
cover the cropped region disjointly (their in-order concatenation is the
region), and the write ranges of any two work units cannot overlap. -/
theorem generateWorkUnits_prefixSum_disjoint {Index : Type} (n g : Nat) (region : List Index)
    (wus : List (WorkUnit Index)) (hw : wus = GenerateWorkUnits n g region)
    (hmin : 1 ≤ min n g) :
    wus.map WorkUnit.imageRegion = SplitRegion region (min n g) ∧
      (wus.map WorkUnit.imageRegion).flatten = region ∧
      (∀ i (hi : i < wus.length), (wus.get ⟨i, hi⟩).Samples =
        (((wus.map WorkUnit.imageRegion).take i).map List.length).sum) ∧
      ∀ i j (hi : i < wus.length) (hj : j < wus.length), i < j →
        (wus.get ⟨i, hi⟩).Samples + (wus.get ⟨i, hi⟩).imageRegion.length ≤
          (wus.get ⟨j, hj⟩).Samples := by
  subst hw
  unfold GenerateWorkUnits
  have hlen : (mkWorkUnits (SplitRegion region (min n g)) 0).length =
      (SplitRegion region (min n g)).length := mkWorkUnits_length _ 0
  have hget : ∀ i (hi : i < (mkWorkUnits (SplitRegion region (min n g)) 0).length),
      (mkWorkUnits (SplitRegion region (min n g)) 0).get ⟨i, hi⟩ =
        ⟨(SplitRegion region (min n g)).get ⟨i, by omega⟩,
          (((SplitRegion region (min n g)).take i).map List.length).sum, 0⟩ := by
    intro i hi
    have h0 := mkWorkUnits_get (SplitRegion region (min n g)) 0 i (by omega)
    rw [List.get_eq_getElem] at h0 ⊢
    rw [h0, Nat.zero_add]
  refine ⟨mkWorkUnits_map_region _ 0, ?_, ?_, ?_⟩
  · rw [mkWorkUnits_map_region _ 0]
    exact SplitRegion_flatten region _ hmin
  · intro i hi
    rw [hget i hi, mkWorkUnits_map_region _ 0]
  · intro i j hi hj hij
    rw [hget i hi, hget j hj]
    exact sum_map_take_succ_le (SplitRegion region (min n g)) i j (by omega) hij

/-- C4 witness: on a concrete 5-pixel region split into 2 sub-regions the
prefix-sum, cover, and non-overlap properties hold. -/
theorem generateWorkUnits_prefixSum_disjoint_witness :
    GenerateWorkUnits 3 2 [0, 1, 2, 3, 4] = GenerateWorkUnits 3 2 [0, 1, 2, 3, 4] ∧
      1 ≤ min 3 2 ∧
      ((GenerateWorkUnits 3 2 [0, 1, 2, 3, 4]).map WorkUnit.imageRegion =
          SplitRegion [0, 1, 2, 3, 4] (min 3 2) ∧
        ((GenerateWorkUnits 3 2 [0, 1, 2, 3, 4]).map WorkUnit.imageRegion).flatten =
          [0, 1, 2, 3, 4] ∧
        (∀ i (hi : i < (GenerateWorkUnits 3 2 [0, 1, 2, 3, 4]).length),
          ((GenerateWorkUnits 3 2 [0, 1, 2, 3, 4]).get ⟨i, hi⟩).Samples =
            ((((GenerateWorkUnits 3 2 [0, 1, 2, 3, 4]).map WorkUnit.imageRegion).take
              i).map List.length).sum) ∧
        ∀ i j (hi : i < (GenerateWorkUnits 3 2 [0, 1, 2, 3, 4]).length)
          (hj : j < (GenerateWorkUnits 3 2 [0, 1, 2, 3, 4]).length), i < j →
          ((GenerateWorkUnits 3 2 [0, 1, 2, 3, 4]).get ⟨i, hi⟩).Samples +
            ((GenerateWorkUnits 3 2 [0, 1, 2, 3, 4]).get ⟨i, hi⟩).imageRegion.length ≤
            ((GenerateWorkUnits 3 2 [0, 1, 2, 3, 4]).get ⟨j, hj⟩).Samples) :=
  ⟨rfl, by decide,
    generateWorkUnits_prefixSum_disjoint 3 2 [0, 1, 2, 3, 4] _ rfl (by decide)⟩

/-- C5: for every requested number of work units and every cropped input
image region, `GenerateWorkUnits` creates one work unit per sub-region of the
split, hence at most `min (numberOfWorkUnits, global maximum number of
threads)` work units. -/
theorem generateWorkUnits_count {Index : Type} (n g : Nat) (region : List Index) :
    (GenerateWorkUnits n g region).length = (SplitRegion region (min n g)).length ∧
      (GenerateWorkUnits n g region).length ≤ min n g := by
  refine ⟨mkWorkUnits_length _ 0, ?_⟩
  unfold GenerateWorkUnits
  rw [mkWorkUnits_length _ 0]
  exact SplitRegion_length_le _ region

/-- C7: `GenerateData` fully replaces the output container's contents: for
every prior content, the result is exactly the samples generated for the
current image, mask, and cropped region, on both the multi-threaded and the
single-threaded path. -/
theorem generateData_replaces_output {Index Point Value ObjPoint : Type} [Inhabited Point]
    [Inhabited Value] (img : InputImage Index Point Value)
    (mask : Option (ImageMask Point ObjPoint)) (useMultiThread : Bool) (n g : Nat)
    (region : List Index) (prior : List (ImageSample Point Value)) (hn : 1 ≤ n)
    (hg : 1 ≤ g) :
    GenerateData img mask useMultiThread n g region prior =
      producedSamples img mask region := by
  unfold GenerateData
  cases useMultiThread with
  | true =>
    rw [if_pos rfl]
    exact MultiThreadedGenerateData_eq img mask region (prior.take 0) n g hn hg
  | false =>
    rw [if_neg (by simp)]
    exact SingleThreadedGenerateData_eq img mask region (prior.take 0)

/-- C7 witness: whatever the container held before (here two stale samples),
the multi-threaded `GenerateData` output is exactly the current samples. -/
theorem generateData_replaces_output_witness :
    1 ≤ 2 ∧ 1 ≤ 8 ∧
      GenerateData exImage (some exMask) true 2 8 [0, 1, 2] [⟨5, 5⟩, ⟨6, 6⟩] =
        producedSamples exImage (some exMask) [0, 1, 2] :=
  ⟨by decide, by decide,
    generateData_replaces_output exImage (some exMask) true 2 8 [0, 1, 2]
      [⟨5, 5⟩, ⟨6, 6⟩] (by decide) (by decide)⟩

/-- C8: a work-unit ID at or above the number of generated work units makes
`ThreaderCallback` return immediately: the work units and the sample buffer
are returned untouched. -/
theorem threaderCallback_out_of_range {Index Point Value ObjPoint : Type} [Inhabited Point]
    [Inhabited Value] (ud : UserData Index Point Value ObjPoint)
    (buf : List (ImageSample Point Value)) (workUnitID : Nat)
    (h : ud.workUnits.length ≤ workUnitID) :
    ThreaderCallback ud buf workUnitID = (ud, buf) := by
  unfold ThreaderCallback
  rw [dif_pos h]

/-- C8 witness: with one generated work unit, ID 5 leaves the state
untouched. -/
theorem threaderCallback_out_of_range_witness :
    (UserData.mk exImage (some exMask) [⟨[0, 1], 0, 0⟩]).workUnits.length ≤ 5 ∧
      ThreaderCallback (UserData.mk exImage (some exMask) [⟨[0, 1], 0, 0⟩]) [⟨1, 2⟩] 5 =
        (UserData.mk exImage (some exMask) [⟨[0, 1], 0, 0⟩], [⟨1, 2⟩]) :=
  ⟨by decide,
    threaderCallback_out_of_range (UserData.mk exImage (some exMask) [⟨[0, 1], 0, 0⟩])
      [⟨1, 2⟩] 5 (by decide)⟩

/-! ### CustomImageMetric (src/Common/CostFunctions/CustomImageMetric.hxx)

`double` arithmetic is embedded as exact rational arithmetic; parameter and
derivative vectors (`ParametersType` / `DerivativeType`) are rational lists.
`ComputeValueAndDerivativeForImage` and `GetNumberOfImages` are declared and
called by the src/ code but implemented elsewhere, so they are abstract here:
a stored image count and an arbitrary per-image value/derivative function. -/

/-- The state of a `CustomImageMetric` as `GetValueAndDerivative` reads it. -/
structure CustomImageMetric where
  m_ImageWeights : List ℚ
  numberOfImages : Nat
  computeValueAndDerivativeForImage : Nat → List ℚ → ℚ × List ℚ

/-- `vnl` vector addition (`totalDerivative += ...` reads the two vectors
componentwise; the operands always have equal sizes where the code runs). -/
def vnl_vector_add (a b : List ℚ) : List ℚ := List.zipWith (· + ·) a b

/-- Scalar times `vnl` vector (`imageWeight * derivative_i`). -/
def vnl_vector_smul (c : ℚ) (a : List ℚ) : List ℚ := a.map (fun x => c * x)

/-- `CustomImageMetric::GetValueAndDerivative`: start from value 0 and a
zero-filled derivative of the parameter vector's size; raise if the stored
image-weight count differs from the image count; otherwise loop over the
images, accumulating `imageWeight * value_i` and
`imageWeight * derivative_i`. -/
def GetValueAndDerivative (metric : CustomImageMetric) (parameters : List ℚ) :
    Except String (ℚ × List ℚ) :=
  if metric.m_ImageWeights.length ≠ metric.numberOfImages then
    Except.error "The number of image weights does not match the number of images."
  else
    Except.ok ((List.range metric.m_ImageWeights.length).foldl
      (fun acc i =>
        (acc.1 + metric.m_ImageWeights.getD i 0 *
          (metric.computeValueAndDerivativeForImage i parameters).1,
         vnl_vector_add acc.2 (vnl_vector_smul (metric.m_ImageWeights.getD i 0)
           (metric.computeValueAndDerivativeForImage i parameters).2)))
      (0, List.replicate parameters.length 0))

theorem metric_fold_eq (metric : CustomImageMetric) (parameters : List ℚ)
    (hd : ∀ i, i < metric.numberOfImages →
      ((metric.computeValueAndDerivativeForImage i parameters).2).length =
        parameters.length) :
    ∀ k, k ≤ metric.numberOfImages →
      (List.range k).foldl
        (fun acc i =>
          (acc.1 + metric.m_ImageWeights.getD i 0 *
            (metric.computeValueAndDerivativeForImage i parameters).1,
           vnl_vector_add acc.2 (vnl_vector_smul (metric.m_ImageWeights.getD i 0)
             (metric.computeValueAndDerivativeForImage i parameters).2)))
        (0, List.replicate parameters.length 0) =
      (((List.range k).map (fun i => metric.m_ImageWeights.getD i 0 *
          (metric.computeValueAndDerivativeForImage i parameters).1)).sum,
       (List.range parameters.length).map (fun j =>
         ((List.range k).map (fun i => metric.m_ImageWeights.getD i 0 *
           ((metric.computeValueAndDerivativeForImage i parameters).2).getD j 0)).sum))
  | 0, _ => by
    simp only [List.range_zero, List.foldl_nil, List.map_nil, List.sum_nil]
    refine Prod.ext rfl ?_
    apply List.ext_getElem
    · simp
    · intro j h1 h2
      simp
  | k + 1, hk => by
    rw [List.range_succ, List.foldl_append,
      metric_fold_eq metric parameters hd k (by omega)]
    rw [List.foldl_cons, List.foldl_nil]
    have hklen : ((metric.computeValueAndDerivativeForImage k parameters).2).length =
        parameters.length := hd k (by omega)
    refine Prod.ext ?_ ?_
    · simp only [List.map_append, List.sum_append, List.map_cons, List.map_nil,
        List.sum_cons, List.sum_nil]
      ring
    · apply List.ext_getElem
      · simp only [vnl_vector_add, vnl_vector_smul]
        simp [hklen]
      · intro j h1 h2
        have hj : j < parameters.length := by
          simp only [vnl_vector_add, vnl_vector_smul] at h1
          simp [hklen] at h1
          omega
        simp only [vnl_vector_add, vnl_vector_smul]
        rw [List.getElem_zipWith, List.getElem_map, List.getElem_map, List.getElem_range,
          List.getElem_map, List.getElem_range]
        rw [List.map_append, List.sum_append, List.map_cons, List.map_nil,
          List.sum_cons, List.sum_nil]
        rw [List.getD_eq_getElem ((metric.computeValueAndDerivativeForImage k parameters).2) 0
          (by omega)]
        ring

/-- C6: when the stored image-weight count equals the image count,
`GetValueAndDerivative` returns value `Σ i, weights[i] * value_i` and a
derivative of the parameter vector's size whose entry `j` is
`Σ i, weights[i] * derivative_i[j]`, where `(value_i, derivative_i)` is the
per-image value and derivative at the given transform parameters. -/
theorem getValueAndDerivative_weighted_sum (metric : CustomImageMetric)
    (parameters : List ℚ) (hw : metric.m_ImageWeights.length = metric.numberOfImages)
    (hd : ∀ i, i < metric.numberOfImages →
      ((metric.computeValueAndDerivativeForImage i parameters).2).length =
        parameters.length) :
    ∃ v d, GetValueAndDerivative metric parameters = Except.ok (v, d) ∧
      v = ((List.range metric.numberOfImages).map (fun i =>
        metric.m_ImageWeights.getD i 0 *
          (metric.computeValueAndDerivativeForImage i parameters).1)).sum ∧
      d.length = parameters.length ∧
      ∀ j, j < parameters.length → d.getD j 0 =
        ((List.range metric.numberOfImages).map (fun i =>
          metric.m_ImageWeights.getD i 0 *
            ((metric.computeValueAndDerivativeForImage i parameters).2).getD j 0)).sum := by
  unfold GetValueAndDerivative
  rw [if_neg (by simp [hw])]
  rw [hw, metric_fold_eq metric parameters hd metric.numberOfImages (Nat.le_refl _)]
  refine ⟨_, _, rfl, rfl, by simp, ?_⟩
  intro j hj
  rw [List.getD_eq_getElem _ _ (by simpa using hj)]
  rw [List.getElem_map, List.getElem_range]

/-- A concrete two-image metric: weights 2 and 3, per-image value
`2 * i + 5`, per-image derivative `parameters + i` componentwise. -/
def exMetric : CustomImageMetric :=
  ⟨[2, 3], 2, fun i p => ((i : ℚ) * 2 + 5, p.map (fun x => x + (i : ℚ)))⟩

/-- C6 witness: on `exMetric` at parameters `[10, 20]` the weighted sums are
returned. -/
theorem getValueAndDerivative_weighted_sum_witness :
    exMetric.m_ImageWeights.length = exMetric.numberOfImages ∧
    (∀ i, i < exMetric.numberOfImages →
      ((exMetric.computeValueAndDerivativeForImage i [10, 20]).2).length =
        ([10, 20] : List ℚ).length) ∧
    ∃ v d, GetValueAndDerivative exMetric [10, 20] = Except.ok (v, d) ∧
      v = ((List.range exMetric.numberOfImages).map (fun i =>
        exMetric.m_ImageWeights.getD i 0 *
          (exMetric.computeValueAndDerivativeForImage i [10, 20]).1)).sum ∧
      d.length = ([10, 20] : List ℚ).length ∧
      ∀ j, j < ([10, 20] : List ℚ).length → d.getD j 0 =
        ((List.range exMetric.numberOfImages).map (fun i =>
          exMetric.m_ImageWeights.getD i 0 *
            ((exMetric.computeValueAndDerivativeForImage i [10, 20]).2).getD j 0)).sum := by
  refine ⟨rfl, by decide, ?_⟩
  exact getValueAndDerivative_weighted_sum exMetric [10, 20] rfl (by decide)

/-- C9: `GetValueAndDerivative` raises exactly when the stored image-weight
count differs from the image count, and in that case it raises before any
per-image computation: the error result is the same for every per-image
value/derivative function (and, the method being `const` and the model pure,
the stored weights are untouched). -/
theorem getValueAndDerivative_error_iff (metric : CustomImageMetric)
    (parameters : List ℚ) :
    ((∃ e, GetValueAndDerivative metric parameters = Except.error e) ↔
        metric.m_ImageWeights.length ≠ metric.numberOfImages) ∧
      (metric.m_ImageWeights.length ≠ metric.numberOfImages →
        ∀ f : Nat → List ℚ → ℚ × List ℚ,
          GetValueAndDerivative
              ⟨metric.m_ImageWeights, metric.numberOfImages, f⟩ parameters =
            GetValueAndDerivative metric parameters) := by
  constructor
  · constructor
    · intro ⟨e, he⟩
      by_contra hne
      rw [GetValueAndDerivative, if_neg (by simp [hne])] at he
      exact Except.noConfusion he
    · intro hne
      refine ⟨"The number of image weights does not match the number of images.", ?_⟩
      rw [GetValueAndDerivative, if_pos hne]
  · intro hne f
    rw [GetValueAndDerivative, GetValueAndDerivative]
    rw [if_pos hne, if_pos hne]

/-! ### AdvancedMattesMutualInformationMetric: `Compute_c` and
`AfterEachIteration`
(src/Components/Metrics/AdvancedMattesMutualInformation/
 elxAdvancedMattesMutualInformationMetric.hxx)

`double` arithmetic (`std::pow` with a real exponent) is embedded as exact
real arithmetic; the `unsigned long` iteration counter as a natural number. -/

/-- `Compute_c(k) = m_Param_c / pow(k + 1, m_Param_gamma)`. -/
noncomputable def Compute_c (m_Param_c m_Param_gamma : ℝ) (k : Nat) : ℝ :=
  m_Param_c / ((k : ℝ) + 1) ^ m_Param_gamma

/-- The metric state `AfterEachIteration` touches: the finite-difference
flag, the iteration counter, the current perturbation, and the SPSA-style
parameters `c` and `gamma`. -/
structure MattesMetricState where
  useFiniteDifferenceDerivative : Bool
  m_CurrentIteration : Nat
  finiteDifferencePerturbation : ℝ
  m_Param_c : ℝ
  m_Param_gamma : ℝ

/-- `AfterEachIteration`: when the finite-difference derivative is in use,
increment the iteration counter and set the perturbation to `Compute_c` of
the incremented counter. -/
noncomputable def AfterEachIteration (s : MattesMetricState) : MattesMetricState :=
  if s.useFiniteDifferenceDerivative then
    { s with
      m_CurrentIteration := s.m_CurrentIteration + 1,
      finiteDifferencePerturbation :=
        Compute_c s.m_Param_c s.m_Param_gamma (s.m_CurrentIteration + 1) }
  else s

/-- C10: `Compute_c(k)` equals `c / (k + 1) ^ gamma`, and for `c > 0` and
`gamma > 0` it is strictly decreasing in `k`; hence the perturbation sequence
set by successive `AfterEachIteration` calls (each applying `Compute_c` to
the incremented iteration counter) is strictly decreasing. -/
theorem compute_c_strictly_decreasing (c γ : ℝ) (k : Nat) (hc : 0 < c) (hγ : 0 < γ)
    (s : MattesMetricState) (hs : s.useFiniteDifferenceDerivative = true)
    (hsc : s.m_Param_c = c) (hsγ : s.m_Param_gamma = γ) :
    Compute_c c γ k = c / ((k : ℝ) + 1) ^ γ ∧
      Compute_c c γ (k + 1) < Compute_c c γ k ∧
      (AfterEachIteration s).finiteDifferencePerturbation =
        Compute_c c γ (s.m_CurrentIteration + 1) ∧
      (AfterEachIteration (AfterEachIteration s)).finiteDifferencePerturbation <
        (AfterEachIteration s).finiteDifferencePerturbation := by
  have hdec : ∀ j : Nat, Compute_c c γ (j + 1) < Compute_c c γ j := by
    intro j
    unfold Compute_c
    have hb0 : (0 : ℝ) < (j : ℝ) + 1 := by positivity
    have hb1 : ((j : ℝ) + 1) < ((j + 1 : Nat) : ℝ) + 1 := by
      push_cast
      linarith
    have hpow : ((j : ℝ) + 1) ^ γ < (((j + 1 : Nat) : ℝ) + 1) ^ γ :=
      Real.rpow_lt_rpow (le_of_lt hb0) hb1 hγ
    exact div_lt_div_of_pos_left hc (Real.rpow_pos_of_pos hb0 γ) hpow
  have hfirst : AfterEachIteration s =
      { s with
        m_CurrentIteration := s.m_CurrentIteration + 1,
        finiteDifferencePerturbation :=
          Compute_c c γ (s.m_CurrentIteration + 1) } := by
    unfold AfterEachIteration
    rw [if_pos hs, hsc, hsγ]
  refine ⟨rfl, hdec k, by rw [hfirst], ?_⟩
  have hsecond : AfterEachIteration (AfterEachIteration s) =
      { s with
        m_CurrentIteration := s.m_CurrentIteration + 2,
        finiteDifferencePerturbation :=
          Compute_c c γ (s.m_CurrentIteration + 2) } := by
    rw [hfirst]
    unfold AfterEachIteration
    rw [if_pos hs, hsc, hsγ]
  rw [hsecond, hfirst]
  exact hdec (s.m_CurrentIteration + 1)

/-- C10 witness: with `c = 1`, `gamma = 1`, iteration 0, the formula holds
and the perturbation strictly decreases across two iterations. -/
theorem compute_c_strictly_decreasing_witness :
    (0 : ℝ) < 1 ∧ (0 : ℝ) < 1 ∧
      (MattesMetricState.mk true 0 37 1 1).useFiniteDifferenceDerivative = true ∧
      (MattesMetricState.mk true 0 37 1 1).m_Param_c = 1 ∧
      (MattesMetricState.mk true 0 37 1 1).m_Param_gamma = 1 ∧
      (Compute_c 1 1 0 = 1 / (((0 : Nat) : ℝ) + 1) ^ (1 : ℝ) ∧
        Compute_c 1 1 (0 + 1) < Compute_c 1 1 0 ∧
        MattesMetricState.finiteDifferencePerturbation
            (AfterEachIteration (MattesMetricState.mk true 0 37 1 1)) =
          Compute_c 1 1 ((MattesMetricState.mk true 0 37 1 1).m_CurrentIteration + 1) ∧
        MattesMetricState.finiteDifferencePerturbation
            (AfterEachIteration (AfterEachIteration (MattesMetricState.mk true 0 37 1 1))) <
          MattesMetricState.finiteDifferencePerturbation
            (AfterEachIteration (MattesMetricState.mk true 0 37 1 1))) :=
  ⟨one_pos, one_pos, rfl, rfl, rfl,
    compute_c_strictly_decreasing 1 1 0 one_pos one_pos
      (MattesMetricState.mk true 0 37 1 1) rfl rfl rfl⟩

end ElastixModel
